import Mathlib

/-!
Verification of the fetch-and-extract pipeline of araxiapatch (src/main.go).

The Go source is shallowly embedded: pure control flow is translated
directly, and the outcomes of operating-system and network calls (file
open and create results, gzip initialisation, the tar entry stream, the
HTTP response, the per-chunk read and write results, wall-clock readings)
are explicit parameters or are derived from an explicit filesystem model.
Go byte strings in this program are ASCII, so Go byte indexing and byte
length coincide with character indexing and character length; Go float
arithmetic on the small quantities involved is modelled exactly over the
rationals.
-/

/-- A Go `error` value, carrying its message. -/
structure GoError where
  msg : String
deriving DecidableEq, Repr

/-- Result of a Go function call that may return an error or panic at
runtime (a panic aborts instead of returning). -/
inductive GoResult (α : Type) where
  | ok (a : α)
  | err (e : GoError)
  | panicked (msg : String)
deriving DecidableEq, Repr

deriving instance DecidableEq for Except

/-- The runtime message of the Go panic raised by a string slice whose
lower bound is negative, as in `s[len(s)-6:]` for `len(s) < 6`. -/
def sliceBoundsMsg : String := "runtime error: slice bounds out of range"

/-! ## Filesystem model

Paths are canonical component lists (split on the separator, empty and
dot components dropped, as the OS path resolution does).  The filesystem
is a finite association from paths to nodes. -/

/-- A node of the modelled filesystem: a directory or a regular file with
its byte content (ASCII, modelled as a string). -/
inductive FSNode where
  | dir
  | file (content : String)
deriving DecidableEq, Repr

/-- A path in canonical component form. -/
abbrev GoPath := List String

/-- The modelled filesystem: an association list from canonical paths to
nodes; `FS.set` keeps at most one binding per path. -/
abbrev FS := List (GoPath × FSNode)

/-- Look a path up in the filesystem. -/
def FS.lookup (fs : FS) (p : GoPath) : Option FSNode :=
  (fs.find? (fun b => b.1 = p)).map (fun b => b.2)

/-- Bind a path to a node, replacing any previous binding. -/
def FS.set (fs : FS) (p : GoPath) (n : FSNode) : FS :=
  (p, n) :: fs.filter (fun b => b.1 ≠ p)

/-- Split a character list at the path separator. -/
def splitAux : List Char → List Char → List String
  | [], acc => [String.mk acc.reverse]
  | c :: cs, acc =>
      if c = '/' then String.mk acc.reverse :: splitAux cs []
      else splitAux cs (c :: acc)

/-- Canonicalise a Go path string into its nonempty, non-dot components
(what the OS resolves `dest + "/" + name` to, including a trailing slash
in a tar directory name). -/
def splitPath (s : String) : GoPath :=
  (splitAux s.data []).filter (fun c => c ≠ "" && c ≠ ".")

/-- The nonempty path prefixes of a path, shortest first. -/
def pathAncestors (p : GoPath) : List GoPath :=
  (List.range p.length).map (fun i => p.take (i + 1))

/-- `os.MkdirAll`: create the directory and every missing ancestor,
tolerating directories that already exist; fail when a regular file is in
the way. -/
def mkdirAll (fs : FS) (p : GoPath) : Except GoError FS :=
  (pathAncestors p).foldlM
    (fun acc q =>
      match FS.lookup acc q with
      | some FSNode.dir => Except.ok acc
      | some (FSNode.file _) => Except.error ⟨"mkdir: not a directory"⟩
      | none => Except.ok (FS.set acc q FSNode.dir))
    fs

/-- `os.Create`: create or truncate a regular file; the parent directory
must exist, and the path must not already be a directory. -/
def osCreate (fs : FS) (p : GoPath) : Except GoError FS :=
  match p with
  | [] => Except.error ⟨"open: no such file or directory"⟩
  | _ :: _ =>
    let parent := p.dropLast
    let parentOk :=
      match parent with
      | [] => true
      | _ :: _ =>
        match FS.lookup fs parent with
        | some FSNode.dir => true
        | _ => false
    if parentOk then
      match FS.lookup fs p with
      | some FSNode.dir => Except.error ⟨"open: is a directory"⟩
      | _ => Except.ok (FS.set fs p (FSNode.file ""))
    else Except.error ⟨"open: no such file or directory"⟩

/-- `os.Open` for reading: succeeds exactly when the path exists, and
otherwise reports the not-found error. -/
def osOpen (fs : FS) (p : GoPath) : Option GoError :=
  match FS.lookup fs p with
  | some _ => none
  | none => some ⟨"open: no such file or directory"⟩

/-! ## Tar extraction (untarGz)

The decoded tar stream is modelled as the list of events the iteration
over `tarReader.Next` produces: a directory header, a regular-file header
together with the bytes `io.Copy` obtains for it (and, when the copy
fails, the error it returns after writing those bytes), an entry of any
other type flag, or a read error from `tarReader.Next` itself; reaching
the end of the list is `io.EOF`. -/

/-- One event of the tar entry iteration in `untarGz`. -/
inductive TarEvent where
  | dirEntry (name : String)
  | regEntry (name : String) (content : String) (copyErr : Option GoError)
  | otherEntry (typeflag : Char) (name : String)
  | readErr (e : GoError)
deriving DecidableEq, Repr

/-- The message `untarGz` prints for an entry of unsupported kind. -/
def unsupportedMsg (typeflag : Char) (name : String) : String :=
  "Unable to untar type : " ++ String.mk [typeflag] ++ " in file " ++ name

/-- Outcome of processing one tar event: continue (with the new
filesystem and an optional printed message), or fail fatally. -/
inductive StepOut where
  | cont (fs : FS) (log : Option String)
  | fatal (e : GoError)
deriving DecidableEq, Repr

/-- The body of the entry loop of `untarGz` for a single event, following
the source case by case: a `tarReader.Next` error is returned; a
directory entry runs `os.MkdirAll dest/name` and returns its error if
any; a regular entry runs `os.Create dest/name` then copies the content
in, returning the first error; any other type flag is only reported. -/
def tarStep (dest : String) (fs : FS) : TarEvent → StepOut
  | TarEvent.readErr e => StepOut.fatal e
  | TarEvent.dirEntry name =>
    match mkdirAll fs (splitPath (dest ++ "/" ++ name)) with
    | Except.ok fs' => StepOut.cont fs' none
    | Except.error e => StepOut.fatal e
  | TarEvent.regEntry name content copyErr =>
    match osCreate fs (splitPath (dest ++ "/" ++ name)) with
    | Except.error e => StepOut.fatal e
    | Except.ok fs' =>
      let fs'' := FS.set fs' (splitPath (dest ++ "/" ++ name)) (FSNode.file content)
      match copyErr with
      | some e => StepOut.fatal e
      | none => StepOut.cont fs'' none
  | TarEvent.otherEntry typeflag name =>
    StepOut.cont fs (some (unsupportedMsg typeflag name))

/-- The entry loop of `untarGz`: process events in order, stop at the
first fatal error returning it, collect the printed messages, and succeed
when the stream is exhausted (`io.EOF`). -/
def untarLoop (dest : String) (fs : FS) : List TarEvent → List String × Except GoError FS
  | [] => ([], Except.ok fs)
  | ev :: rest =>
    match tarStep dest fs ev with
    | StepOut.fatal e => ([], Except.error e)
    | StepOut.cont fs' none => untarLoop dest fs' rest
    | StepOut.cont fs' (some msg) =>
      let r := untarLoop dest fs' rest
      (msg :: r.1, r.2)

/-- The last six characters of a string, as the Go expression
`s[len(s)-6:]` computes for `len(s) ≥ 6` (ASCII strings, so bytes and
characters coincide). -/
def last6 (s : String) : String :=
  String.mk (s.data.drop (s.data.length - 6))

/-- Whether a name ends with the archive suffix `.tar.gz` (the intent the
source comment states for the check in `untarGz`). -/
def nameEndsWithTarGz (s : String) : Bool :=
  List.isSuffixOf (".tar.gz").data s.data

/-- What the world supplies for one source archive beyond the filesystem:
the result of `gzip.NewReader` on its content, and the tar events its
decompressed content decodes to. -/
structure ArchiveData where
  gzipErr : Option GoError
  events : List TarEvent
deriving Repr

/-- `untarGz src dest` from the source: open `src` (returning the open
error on failure); slice the last six bytes of the name — a runtime panic
when the name is shorter than six bytes — and compare them with the
seven-character literal `".tar.gz"`, returning nil success on mismatch;
otherwise initialise gzip (returning its error) and run the entry loop. -/
def untarGz (arc : ArchiveData) (src dest : String) (fs : FS) :
    List String × GoResult FS :=
  match osOpen fs (splitPath src) with
  | some e => ([], GoResult.err e)
  | none =>
    if src.data.length < 6 then ([], GoResult.panicked sliceBoundsMsg)
    else if last6 src ≠ ".tar.gz" then ([], GoResult.ok fs)
    else
      match arc.gzipErr with
      | some e => ([], GoResult.err e)
      | none =>
        match untarLoop dest fs arc.events with
        | (logs, Except.ok fs') => (logs, GoResult.ok fs')
        | (logs, Except.error e) => (logs, GoResult.err e)

/-! ## Download (downloadFile)

The body-read loop of `downloadFile` is driven by the list of results of
successive `resp.Body.Read(buf)` calls.  Each event carries the number of
bytes read into the buffer, the wall-clock reading `time.Now()` of that
iteration, the result of the unchecked `out.Write(buf[:n])` call (bytes
actually written and an optional write error), and the error value the
read returned (nil, `io.EOF`, or another error).  Reads may return data
together with an error, as Go `io.Reader` allows; the source processes
the data first and checks the error after, and so does the model.

Wall-clock readings are integer nanoseconds, as in Go `time.Time` and
`time.Duration`; `d.Seconds()` is the real number `d / 1e9`, so the
source test `elapsed >= 1` is exactly the duration test
`now - lastTime ≥ 10^9` nanoseconds.  The float64 divisions of the
source (`speed`, `percent`) are modelled exactly: the state records the
integer operands the source divides, and the ℚ-valued functions
`Sample.speed` and `updateProgressBar` interpret them. -/

/-- Nanoseconds per second: the factor between a Go `time.Duration` and
the value of its `Seconds()` method. -/
def nsPerSec : Int := 1000000000

/-- The error value of one `resp.Body.Read` call. -/
inductive ReadErr where
  | eof
  | other (e : GoError)
deriving DecidableEq, Repr

/-- One iteration of the read loop of `downloadFile`. -/
structure ReadEvent where
  n : Nat
  now : Int
  written : Nat
  writeErr : Option GoError
  readErr : Option ReadErr
deriving DecidableEq, Repr

/-- One emitted throughput sample: the wall-clock time of emission, the
value of the transfer counter at emission, and the two operands of the
float64 division computing the speed — the byte delta
`progressBar.current - lastBytes` and the elapsed duration
`now.Sub(lastTime)` in nanoseconds. -/
structure Sample where
  timeNs : Int
  bytes : Int
  deltaBytes : Int
  deltaNs : Int
deriving DecidableEq, Repr

/-- The speed value the source computes at emission,
`float64(progressBar.current - lastBytes) / elapsed.Seconds()`, exactly
over ℚ: the byte delta divided by the elapsed duration in seconds. -/
def Sample.speed (s : Sample) : ℚ :=
  (s.deltaBytes : ℚ) / ((s.deltaNs : ℚ) / (nsPerSec : ℚ))

/-- The elapsed seconds between two wall-clock readings, exactly over
ℚ. -/
def secondsBetween (t₁ t₂ : Int) : ℚ :=
  ((t₂ - t₁ : Int) : ℚ) / (nsPerSec : ℚ)

/-- `updateProgressBar` computes `current / total * 100` (float division,
exact here over ℚ) and hands it to the progress widget. -/
def updateProgressBar (current total : Int) : ℚ :=
  (current : ℚ) / (total : ℚ) * 100

/-- The per-task state of `downloadFile`: the fields `total` and
`current` of its ProgressBar, the speed-sampling baselines `lastTime` and
`lastBytes`, the bytes actually written to the destination file, and the
observable outputs — the emitted samples and, for each
`updateProgressBar` call, the `(current, total)` operand pair it divided.
-/
structure DLState where
  total : Int
  current : Int
  lastTime : Int
  lastBytes : Int
  bytesWritten : Nat
  samples : List Sample
  percents : List (Int × Int)
deriving DecidableEq, Repr

/-- The percentage values reported to the progress widget, in call
order. -/
def DLState.reported (st : DLState) : List ℚ :=
  st.percents.map (fun p => updateProgressBar p.1 p.2)

/-- The `if n > 0` block of the read loop: write the chunk (both results
of `out.Write` are discarded by the source, so only the ghost
`bytesWritten` counter sees them), advance `current` by the bytes read,
emit a speed sample when at least one second elapsed since the last
baseline, resetting the baseline, and report the percentage. -/
def dlChunk (st : DLState) (ev : ReadEvent) : DLState :=
  if 0 < ev.n then
    let current := st.current + (ev.n : Int)
    let elapsedNs := ev.now - st.lastTime
    let st1 :=
      if nsPerSec ≤ elapsedNs then
        { st with
            samples := st.samples ++ [⟨ev.now, current, current - st.lastBytes, elapsedNs⟩]
            lastBytes := current
            lastTime := ev.now }
      else st
    { st1 with
        current := current
        bytesWritten := st.bytesWritten + ev.written
        percents := st1.percents ++ [(current, st.total)] }
  else st

/-- One full iteration of the read loop: process the data, then branch on
the read error — nil continues, `io.EOF` breaks out of the loop, any
other error makes the function return. -/
def dlStep (st : DLState) (ev : ReadEvent) : DLState × Option (Option GoError) :=
  let st' := dlChunk st ev
  match ev.readErr with
  | none => (st', none)
  | some ReadErr.eof => (st', some none)
  | some (ReadErr.other e) => (st', some (some e))

/-- The read loop over a list of read events: `some none` means the loop
broke at `io.EOF`, `some (some e)` that the function returned on a read
error, and `none` that the supplied event list ran out with the loop
still running. -/
def dlLoop (st : DLState) : List ReadEvent → DLState × Option (Option GoError)
  | [] => (st, none)
  | ev :: rest =>
    match dlStep st ev with
    | (st', none) => dlLoop st' rest
    | (st', some exit) => (st', some exit)

/-- What the world supplies for one HTTP GET: the error of `http.Get`,
and the `ContentLength` of the response (negative when unknown, as in
`net/http`). -/
structure HttpOutcome where
  getErr : Option GoError
  contentLength : Int
deriving DecidableEq, Repr

/-- The initial per-task state, after `progressBar.total` is set from the
response and the baselines `lastTime := start` and `lastBytes := 0` are
initialised from `start := time.Now()`. -/
def initState (total : Int) (start : Int) : DLState :=
  ⟨total, 0, start, 0, 0, [], []⟩

/-- `downloadFile` from the source: create the destination file
(returning without any completion signal on failure), issue the GET
(likewise), record the content length, run the read loop, and send on the
`done` channel only when the loop broke at `io.EOF`; the second component
is whether `done <- true` executed. -/
def downloadFile (createErr : Option GoError) (http : HttpOutcome)
    (start : Int) (events : List ReadEvent) : DLState × Bool :=
  match createErr with
  | some _ => (initState 0 start, false)
  | none =>
    match http.getErr with
    | some _ => (initState 0 start, false)
    | none =>
      match dlLoop (initState http.contentLength start) events with
      | (st, some none) => (st, true)
      | (st, some (some _)) => (st, false)
      | (st, none) => (st, false)

/-- The fan-in loop of `run` performs one channel receive per configured
file; with each task sending at most one value, the loop can finish only
if every task sent its signal.  `runReturns` is that condition on the
per-task signal flags. -/
def runReturns (signals : List Bool) : Bool :=
  signals.all (fun b => b)

/-- Wall-clock sanity of a read-event trace: the readings of `time.Now()`
are non-decreasing, starting from the reading `t` taken before the
loop. -/
def timesMonoB (t : Int) : List ReadEvent → Bool
  | [] => true
  | ev :: rest => decide (t ≤ ev.now) && timesMonoB ev.now rest

/-- The relation between one emitted sample (or the virtual origin sample
at the start time with zero bytes) and the next: emissions are at least
one second of wall-clock time apart, and the speed of the later one is
the byte delta between the two divided by the elapsed seconds between the
two — the baseline is reset at each emission. -/
def sampleRel (s₁ s₂ : Sample) : Prop :=
  s₁.timeNs + nsPerSec ≤ s₂.timeNs ∧
  s₂.speed = ((s₂.bytes - s₁.bytes : Int) : ℚ) / secondsBetween s₁.timeNs s₂.timeNs

/-- The virtual origin sample: the state of the sampling baselines before
any emission, at the start reading with zero transferred bytes. -/
def originSample (start : Int) : Sample :=
  ⟨start, 0, 0, 0⟩

/-! ## Concrete instances and invariants used by the statements -/

/-- A destination directory `D` already holding the downloaded archive
`AraxiaPatchv1.tar.gz` (one of the configured file names of the
program). -/
def archiveFS : FS :=
  [(["D"], FSNode.dir), (["D", "AraxiaPatchv1.tar.gz"], FSNode.file "gz")]

/-- A well-formed gzip tar archive holding a directory entry `a/` and a
regular-file entry `a/b.txt` with content `hello`: gzip initialisation
succeeds and the stream decodes to the two entries. -/
def exampleArchive : ArchiveData :=
  ⟨none, [TarEvent.dirEntry "a/", TarEvent.regEntry "a/b.txt" "hello" none]⟩

/-- The sampling invariant of the read loop: the emitted samples, behind
the virtual origin sample, are spaced at least a second apart with each
speed the byte delta over the elapsed seconds since the previous one, and
the baselines `lastTime` and `lastBytes` hold the emission time and byte
count of the most recent sample (or of the origin when none was emitted
yet). -/
def sampleInv (start : Int) (st : DLState) : Prop :=
  List.Chain' sampleRel (originSample start :: st.samples) ∧
  st.lastTime = (st.samples.getLastD (originSample start)).timeNs ∧
  st.lastBytes = (st.samples.getLastD (originSample start)).bytes

/-! ## Helper lemmas -/

lemma getLast?_cons_getLastD {α : Type} (a : α) (l : List α) :
    (a :: l).getLast? = some (l.getLastD a) := by
  induction l generalizing a with
  | nil => rfl
  | cons b l ih => rw [List.getLast?_cons_cons, ih, List.getLastD_cons]

lemma getLastD_append_single {α : Type} (l : List α) (a d : α) :
    (l ++ [a]).getLastD d = a := by
  induction l generalizing d with
  | nil => rfl
  | cons b l ih => rw [List.cons_append, List.getLastD_cons, ih]

/-- The last six characters of a string of length at least six never
equal the seven-character literal: the lengths differ.  This is the
off-by-one at the heart of the suffix check of `untarGz`. -/
lemma last6_ne_tarGz (s : String) (h : 6 ≤ s.data.length) :
    last6 s ≠ ".tar.gz" := by
  intro heq
  have hlen6 : (last6 s).data.length = 6 := by
    simp only [last6, List.length_drop]
    omega
  rw [heq] at hlen6
  revert hlen6
  decide

/-! ## Claims about the extractor -/

/-- Claim C1: the claim says that for a source whose name ends in
`.tar.gz` holding a well-formed archive with entries dir `a/` and file
`a/b.txt` = `hello`, extraction into `D` materialises `D/a/` and
`D/a/b.txt` = `hello`.  The code does not: the suffix check compares the
last SIX characters of the name (here `tar.gz`) against the
seven-character literal `.tar.gz`, which never match, so `untarGz`
returns success having touched nothing — `D/a/b.txt` is absent.  The
entry loop itself, had it been reached, would have materialised exactly
the claimed entries, which shows the skip is the sole divergence. -/
theorem untarGz_skips_wellformed_archive :
    untarGz exampleArchive "D/AraxiaPatchv1.tar.gz" "D" archiveFS = ([], GoResult.ok archiveFS) ∧
    FS.lookup archiveFS ["D", "a", "b.txt"] = none ∧
    FS.lookup archiveFS ["D", "a"] = none ∧
    last6 "D/AraxiaPatchv1.tar.gz" = "tar.gz" ∧
    untarLoop "D" archiveFS exampleArchive.events =
      ([], Except.ok [(["D", "a", "b.txt"], FSNode.file "hello"), (["D", "a"], FSNode.dir),
        (["D"], FSNode.dir), (["D", "AraxiaPatchv1.tar.gz"], FSNode.file "gz")]) ∧
    FS.lookup [(["D", "a", "b.txt"], FSNode.file "hello"), (["D", "a"], FSNode.dir),
        (["D"], FSNode.dir), (["D", "AraxiaPatchv1.tar.gz"], FSNode.file "gz")]
      ["D", "a", "b.txt"] = some (FSNode.file "hello") := by
  decide

/-- Claim C7: during one extraction pass, the first fatal error (entry
read failure, directory-creation failure, create or copy failure) is
returned to the caller with no further entries processed — the result is
the error alone, independent of the remaining entries — while an entry of
unsupported kind is reported non-fatally and the loop continues with the
next entry. -/
theorem untarLoop_first_fatal_error (dest : String) (fs : FS) (ev : TarEvent)
    (rest : List TarEvent) :
    (∀ e, tarStep dest fs ev = StepOut.fatal e →
      untarLoop dest fs (ev :: rest) = ([], Except.error e)) ∧
    (∀ c name, ev = TarEvent.otherEntry c name →
      untarLoop dest fs (ev :: rest) =
        (unsupportedMsg c name :: (untarLoop dest fs rest).1, (untarLoop dest fs rest).2)) := by
  constructor
  · intro e h
    simp [untarLoop, h]
  · intro c name h
    subst h
    simp [untarLoop, tarStep]

theorem untarLoop_first_fatal_error_witness :
    untarLoop "D" [] [TarEvent.readErr ⟨"unexpected EOF"⟩, TarEvent.dirEntry "x"] =
      ([], Except.error ⟨"unexpected EOF"⟩) ∧
    untarLoop "D" [] [TarEvent.otherEntry 'L' "x"] = ([unsupportedMsg 'L' "x"], Except.ok []) := by
  constructor
  · exact (untarLoop_first_fatal_error "D" [] (TarEvent.readErr ⟨"unexpected EOF"⟩)
      [TarEvent.dirEntry "x"]).1 ⟨"unexpected EOF"⟩ (by decide)
  · have h := (untarLoop_first_fatal_error "D" [] (TarEvent.otherEntry 'L' "x") []).2 'L' "x" rfl
    rw [h]
    decide

/-- Claim C8 counterexample: the claim quantifies over every input file
whose name does not end in `.tar.gz`; the existing three-character file
`a.b` is such an input, yet `untarGz` panics on the slice `name[len-6:]`
instead of returning a no-op success. -/
theorem untarGz_short_nonarchive_panics :
    nameEndsWithTarGz "a.b" = false ∧
    untarGz ⟨none, []⟩ "a.b" "D" [(["a.b"], FSNode.file "x")] =
      ([], GoResult.panicked sliceBoundsMsg) ∧
    untarGz ⟨none, []⟩ "a.b" "D" [(["a.b"], FSNode.file "x")] ≠
      ([], GoResult.ok [(["a.b"], FSNode.file "x")]) := by
  decide

/-- Claim C8 as amended: for every input file that exists (its open
succeeds) and whose source path is at least six characters long, if its
name does not end with `.tar.gz` then `untarGz` is a no-op returning
success with the filesystem — in particular the destination directory —
untouched. -/
theorem untarGz_nonarchive_noop (arc : ArchiveData) (src dest : String) (fs : FS)
    (hopen : osOpen fs (splitPath src) = none)
    (hlen : 6 ≤ src.data.length)
    (_hsfx : nameEndsWithTarGz src = false) :
    untarGz arc src dest fs = ([], GoResult.ok fs) := by
  unfold untarGz
  rw [hopen, if_neg (by omega), if_pos (last6_ne_tarGz src hlen)]

theorem untarGz_nonarchive_noop_witness :
    osOpen [(["info.txt"], FSNode.file "manifest")] (splitPath "info.txt") = none ∧
    6 ≤ ("info.txt").data.length ∧
    nameEndsWithTarGz "info.txt" = false ∧
    untarGz ⟨none, []⟩ "info.txt" "D" [(["info.txt"], FSNode.file "manifest")] =
      ([], GoResult.ok [(["info.txt"], FSNode.file "manifest")]) :=
  ⟨by decide, by decide, by decide,
    untarGz_nonarchive_noop ⟨none, []⟩ "info.txt" "D" [(["info.txt"], FSNode.file "manifest")]
      (by decide) (by decide) (by decide)⟩

/-- Claim C9: `untarGz` slices the last six bytes of the source path
unconditionally; when the path is shorter than six bytes and the open
succeeded, it panics with a slice-bounds violation rather than returning
an error or a no-op success. -/
theorem untarGz_short_path_panics (arc : ArchiveData) (src dest : String) (fs : FS)
    (hopen : osOpen fs (splitPath src) = none)
    (hlen : src.data.length < 6) :
    untarGz arc src dest fs = ([], GoResult.panicked sliceBoundsMsg) := by
  unfold untarGz
  rw [hopen, if_pos hlen]

theorem untarGz_short_path_panics_witness :
    osOpen [(["a.gz"], FSNode.file "x")] (splitPath "a.gz") = none ∧
    ("a.gz").data.length < 6 ∧
    untarGz ⟨none, []⟩ "a.gz" "D" [(["a.gz"], FSNode.file "x")] =
      ([], GoResult.panicked sliceBoundsMsg) :=
  ⟨by decide, by decide,
    untarGz_short_path_panics ⟨none, []⟩ "a.gz" "D" [(["a.gz"], FSNode.file "x")]
      (by decide) (by decide)⟩

/-- Claim C10: `untarGz` opens the source before the suffix check, so on
a non-archive name whose path does not exist it returns the open error
rather than the no-op success of the skip path: existence of the source
is required even for non-archive inputs. -/
theorem untarGz_missing_file_error (arc : ArchiveData) (src dest : String) (fs : FS)
    (e : GoError)
    (hopen : osOpen fs (splitPath src) = some e)
    (_hsfx : nameEndsWithTarGz src = false) :
    untarGz arc src dest fs = ([], GoResult.err e) := by
  unfold untarGz
  rw [hopen]

theorem untarGz_missing_file_error_witness :
    osOpen [] (splitPath "x.txt") = some ⟨"open: no such file or directory"⟩ ∧
    nameEndsWithTarGz "x.txt" = false ∧
    untarGz ⟨none, []⟩ "x.txt" "D" [] =
      ([], GoResult.err ⟨"open: no such file or directory"⟩) :=
  ⟨by decide, by decide,
    untarGz_missing_file_error ⟨none, []⟩ "x.txt" "D" [] ⟨"open: no such file or directory"⟩
      (by decide) (by decide)⟩

/-! ## Claims about the fetcher -/

/-- Claim C2: the claim says the fan-in barrier receives exactly one
completion signal from every task whether it succeeds or fails.  The
code sends on `done` only after the loop breaks at `io.EOF`: on a
file-creation failure, a GET failure, or a mid-stream read failure,
`downloadFile` returns without signalling, and the receive loop of `run`
— which needs one signal per configured file — can then never finish. -/
theorem downloadFile_failure_skips_done :
    (downloadFile (some ⟨"permission denied"⟩) ⟨none, 100⟩ 0 []).2 = false ∧
    (downloadFile none ⟨some ⟨"connection refused"⟩, -1⟩ 0 []).2 = false ∧
    (downloadFile none ⟨none, 100⟩ 0
      [⟨0, 0, 0, none, some (ReadErr.other ⟨"connection reset"⟩)⟩]).2 = false ∧
    (downloadFile none ⟨none, 100⟩ 0 [⟨100, 0, 100, none, some ReadErr.eof⟩]).2 = true ∧
    runReturns [true, false, true] = false ∧
    runReturns [true, true, true] = true := by
  decide

/-- Claim C4: the claim says the final `bytesTransferred` equals the
bytes actually written and that a write failure aborts the task.  The
code discards both results of `out.Write(buf[:n])` and advances
`progressBar.current` by the bytes READ: after a chunk of 1024 read bytes
of which the write stores only 512 before failing, the counter is 1024,
the file holds 512 bytes, and the task runs on to a successful completion
signal instead of aborting. -/
theorem downloadFile_ignores_write_results :
    (downloadFile none ⟨none, 2048⟩ 0
      [⟨1024, 0, 512, some ⟨"disk full"⟩, none⟩, ⟨0, 0, 0, none, some ReadErr.eof⟩]).1.current
      = 1024 ∧
    (downloadFile none ⟨none, 2048⟩ 0
      [⟨1024, 0, 512, some ⟨"disk full"⟩, none⟩, ⟨0, 0, 0, none, some ReadErr.eof⟩]).1.bytesWritten
      = 512 ∧
    (downloadFile none ⟨none, 2048⟩ 0
      [⟨1024, 0, 512, some ⟨"disk full"⟩, none⟩, ⟨0, 0, 0, none, some ReadErr.eof⟩]).2 = true ∧
    ((downloadFile none ⟨none, 2048⟩ 0
      [⟨1024, 0, 512, some ⟨"disk full"⟩, none⟩, ⟨0, 0, 0, none, some ReadErr.eof⟩]).1.current ≠
     ((downloadFile none ⟨none, 2048⟩ 0
      [⟨1024, 0, 512, some ⟨"disk full"⟩, none⟩, ⟨0, 0, 0, none, some ReadErr.eof⟩]).1.bytesWritten
        : Int)) := by
  decide

/-- Claim C3 counterexample: the claim says that with an unknown
(negative) declared length no percentage is computed or reported; the
code calls `updateProgressBar` unconditionally, dividing by the invalid
denominator −1 and reporting −102400 percent after one 1024-byte
chunk. -/
theorem downloadFile_reports_percent_unknown_total :
    (downloadFile none ⟨none, -1⟩ 0
      [⟨1024, 0, 1024, none, some ReadErr.eof⟩]).1.percents = [(1024, -1)] ∧
    (downloadFile none ⟨none, -1⟩ 0
      [⟨1024, 0, 1024, none, some ReadErr.eof⟩]).1.reported ≠ [] ∧
    updateProgressBar 1024 (-1) = -102400 := by
  refine ⟨by decide, ?_, by norm_num [updateProgressBar]⟩
  intro h
  have h' : (downloadFile none ⟨none, -1⟩ 0
      [⟨1024, 0, 1024, none, some ReadErr.eof⟩]).1.reported
      = [updateProgressBar 1024 (-1)] := rfl
  rw [h'] at h
  exact List.cons_ne_nil _ _ h

/-- Claim C5 counterexample: the claim asserts monotonically
non-decreasing reported percentages for every task; for a task with
unknown (negative) declared length the code still reports
`current / total * 100`, and the sequence −102400, −204800 obtained after
two 1024-byte chunks is strictly decreasing. -/
theorem downloadFile_percent_decreasing_unknown_total :
    (downloadFile none ⟨none, -1⟩ 0
      [⟨1024, 0, 1024, none, none⟩, ⟨1024, 0, 1024, none, some ReadErr.eof⟩]).1.percents
      = [(1024, -1), (2048, -1)] ∧
    updateProgressBar 2048 (-1) < updateProgressBar 1024 (-1) ∧
    ¬ List.Chain' (· ≤ ·) (downloadFile none ⟨none, -1⟩ 0
      [⟨1024, 0, 1024, none, none⟩, ⟨1024, 0, 1024, none, some ReadErr.eof⟩]).1.reported := by
  refine ⟨by decide, by norm_num [updateProgressBar], ?_⟩
  intro hch
  have h' : (downloadFile none ⟨none, -1⟩ 0
      [⟨1024, 0, 1024, none, none⟩, ⟨1024, 0, 1024, none, some ReadErr.eof⟩]).1.reported
      = [updateProgressBar 1024 (-1), updateProgressBar 2048 (-1)] := rfl
  rw [h'] at hch
  have hle := (List.chain'_cons.mp hch).1
  norm_num [updateProgressBar] at hle

/-! ### Percent bookkeeping lemmas -/

lemma dlChunk_zero (st : DLState) (ev : ReadEvent) (h : ev.n = 0) : dlChunk st ev = st := by
  simp [dlChunk, h]

lemma dlChunk_pos_current (st : DLState) (ev : ReadEvent) (h : 0 < ev.n) :
    (dlChunk st ev).current = st.current + (ev.n : Int) := by
  simp only [dlChunk, if_pos h]

lemma dlChunk_pos_total (st : DLState) (ev : ReadEvent) (h : 0 < ev.n) :
    (dlChunk st ev).total = st.total := by
  simp only [dlChunk, if_pos h]
  all_goals split <;> rfl

lemma dlChunk_pos_percents (st : DLState) (ev : ReadEvent) (h : 0 < ev.n) :
    (dlChunk st ev).percents = st.percents ++ [(st.current + (ev.n : Int), st.total)] := by
  simp only [dlChunk, if_pos h]
  all_goals split <;> rfl

lemma mem_of_getLast?_eq {α : Type} {l : List α} {a : α} (h : l.getLast? = some a) :
    a ∈ l := by
  induction l with
  | nil => cases h
  | cons b l ih =>
    cases l with
    | nil =>
      simp only [List.getLast?_singleton, Option.some.injEq] at h
      simp [h]
    | cons c l' =>
      rw [List.getLast?_cons_cons] at h
      exact List.mem_cons_of_mem _ (ih h)

lemma updateProgressBar_neg {c t : Int} (hc : 0 < c) (ht : t < 0) :
    updateProgressBar c t < 0 := by
  unfold updateProgressBar
  have hc' : (0 : ℚ) < (c : ℚ) := by exact_mod_cast hc
  have ht' : ((t : ℚ)) < 0 := by exact_mod_cast ht
  have hdiv : (c : ℚ) / (t : ℚ) < 0 := div_neg_of_pos_of_neg hc' ht'
  exact mul_neg_of_neg_of_pos hdiv (by norm_num)

lemma updateProgressBar_mono {c₁ c₂ t : Int} (ht : 0 < t) (h : c₁ ≤ c₂) :
    updateProgressBar c₁ t ≤ updateProgressBar c₂ t := by
  unfold updateProgressBar
  have ht' : (0 : ℚ) < (t : ℚ) := by exact_mod_cast ht
  have h' : (c₁ : ℚ) ≤ (c₂ : ℚ) := by exact_mod_cast h
  gcongr

lemma dlLoop_percents_inv (events : List ReadEvent) (st : DLState)
    (htot : st.total < 0) (hcur : 0 ≤ st.current)
    (hper : ∀ p ∈ st.percents, p.2 < 0 ∧ 0 < p.1) :
    ∀ p ∈ (dlLoop st events).1.percents, p.2 < 0 ∧ 0 < p.1 := by
  induction events generalizing st with
  | nil => exact hper
  | cons ev rest ih =>
    by_cases hn : 0 < ev.n
    · have hc := dlChunk_pos_current st ev hn
      have htl := dlChunk_pos_total st ev hn
      have hp := dlChunk_pos_percents st ev hn
      have hnint : (0 : Int) < (ev.n : Int) := by exact_mod_cast hn
      have htot' : (dlChunk st ev).total < 0 := by rw [htl]; exact htot
      have hcur' : 0 ≤ (dlChunk st ev).current := by rw [hc]; omega
      have hper' : ∀ p ∈ (dlChunk st ev).percents, p.2 < 0 ∧ 0 < p.1 := by
        rw [hp]
        intro p hpmem
        rcases List.mem_append.mp hpmem with hmem | hmem
        · exact hper p hmem
        · have hpe : p = (st.current + (ev.n : Int), st.total) := List.mem_singleton.mp hmem
          subst hpe
          exact ⟨htot, by omega⟩
      cases hre : ev.readErr with
      | none => simpa [dlLoop, dlStep, hre] using ih (dlChunk st ev) htot' hcur' hper'
      | some exit => cases exit <;> simpa [dlLoop, dlStep, hre] using hper'
    · have heq := dlChunk_zero st ev (by omega)
      cases hre : ev.readErr with
      | none => simpa [dlLoop, dlStep, hre, heq] using ih st htot hcur hper
      | some exit => cases exit <;> simpa [dlLoop, dlStep, hre, heq] using hper

lemma dlLoop_percents_extend (events : List ReadEvent) (st : DLState) :
    ∃ l, (dlLoop st events).1.percents = st.percents ++ l := by
  induction events generalizing st with
  | nil => exact ⟨[], by simp [dlLoop]⟩
  | cons ev rest ih =>
    have hst' : ∃ l₀, (dlChunk st ev).percents = st.percents ++ l₀ := by
      by_cases hn : 0 < ev.n
      · exact ⟨_, dlChunk_pos_percents st ev hn⟩
      · exact ⟨[], by simp [dlChunk_zero st ev (by omega)]⟩
    obtain ⟨l₀, hl₀⟩ := hst'
    cases hre : ev.readErr with
    | none =>
      obtain ⟨l₁, hl₁⟩ := ih (dlChunk st ev)
      exact ⟨l₀ ++ l₁, by simp [dlLoop, dlStep, hre, hl₁, hl₀, List.append_assoc]⟩
    | some exit =>
      cases exit <;> exact ⟨l₀, by simp [dlLoop, dlStep, hre, hl₀]⟩

lemma dlLoop_percents_cons_pos (st : DLState) (ev : ReadEvent) (rest : List ReadEvent)
    (hn : 0 < ev.n) :
    ∃ l, (dlLoop st (ev :: rest)).1.percents =
      st.percents ++ ((st.current + (ev.n : Int), st.total) :: l) := by
  have hp := dlChunk_pos_percents st ev hn
  cases hre : ev.readErr with
  | none =>
    obtain ⟨l, hl⟩ := dlLoop_percents_extend rest (dlChunk st ev)
    refine ⟨l, ?_⟩
    simp [dlLoop, dlStep, hre, hl, hp, List.append_assoc]
  | some exit =>
    cases exit <;> exact ⟨[], by simp [dlLoop, dlStep, hre, hp]⟩

lemma dlLoop_percents_chain (events : List ReadEvent) (st : DLState)
    (htot : 0 < st.total)
    (hch : List.Chain' (fun p q : Int × Int =>
      updateProgressBar p.1 p.2 ≤ updateProgressBar q.1 q.2) st.percents)
    (hub : ∀ p ∈ st.percents,
      updateProgressBar p.1 p.2 ≤ updateProgressBar st.current st.total) :
    List.Chain' (fun p q : Int × Int =>
      updateProgressBar p.1 p.2 ≤ updateProgressBar q.1 q.2)
      (dlLoop st events).1.percents := by
  induction events generalizing st with
  | nil => exact hch
  | cons ev rest ih =>
    by_cases hn : 0 < ev.n
    · have hc := dlChunk_pos_current st ev hn
      have htl := dlChunk_pos_total st ev hn
      have hp := dlChunk_pos_percents st ev hn
      have hnint : (0 : Int) < (ev.n : Int) := by exact_mod_cast hn
      have hmono : updateProgressBar st.current st.total ≤
          updateProgressBar (st.current + (ev.n : Int)) st.total :=
        updateProgressBar_mono htot (by omega)
      have hch' : List.Chain' (fun p q : Int × Int =>
          updateProgressBar p.1 p.2 ≤ updateProgressBar q.1 q.2)
          (dlChunk st ev).percents := by
        rw [hp]
        refine List.Chain'.append hch (List.chain'_singleton _) ?_
        intro x hx y hy
        rw [Option.mem_def] at hx hy
        have hxmem : x ∈ st.percents := mem_of_getLast?_eq hx
        obtain rfl : (st.current + (ev.n : Int), st.total) = y := by simpa using hy
        exact le_trans (hub x hxmem) hmono
      have hub' : ∀ p ∈ (dlChunk st ev).percents,
          updateProgressBar p.1 p.2 ≤
            updateProgressBar (dlChunk st ev).current (dlChunk st ev).total := by
        rw [hp, hc, htl]
        intro p hpmem
        rcases List.mem_append.mp hpmem with hmem | hmem
        · exact le_trans (hub p hmem) hmono
        · have hpe : p = (st.current + (ev.n : Int), st.total) := List.mem_singleton.mp hmem
          subst hpe
          exact le_refl _
      have htot' : 0 < (dlChunk st ev).total := by rw [htl]; exact htot
      cases hre : ev.readErr with
      | none => simpa [dlLoop, dlStep, hre] using ih (dlChunk st ev) htot' hch' hub'
      | some exit => cases exit <;> simpa [dlLoop, dlStep, hre] using hch'
    · have heq := dlChunk_zero st ev (by omega)
      cases hre : ev.readErr with
      | none => simpa [dlLoop, dlStep, hre, heq] using ih st htot hch hub
      | some exit => cases exit <;> simpa [dlLoop, dlStep, hre, heq] using hch

/-- Claim C3 as amended: for a task whose declared content length is
unknown (negative), the code does not leave the percentage undefined — it
reports `current / total * 100` for every nonempty chunk, dividing by the
invalid denominator, so every reported percentage is negative, and at
least one is reported as soon as the first read returns data. -/
theorem downloadFile_unknown_total_percent (createErr : Option GoError)
    (http : HttpOutcome) (start : Int) (events : List ReadEvent)
    (hcreate : createErr = none) (hget : http.getErr = none)
    (htot : http.contentLength < 0) :
    (∀ q ∈ (downloadFile createErr http start events).1.reported, q < 0) ∧
    (∀ ev rest, events = ev :: rest → 0 < ev.n →
      (downloadFile createErr http start events).1.reported ≠ []) := by
  subst hcreate
  have hD : (downloadFile none http start events).1 =
      (dlLoop (initState http.contentLength start) events).1 := by
    rcases hdl : dlLoop (initState http.contentLength start) events with ⟨st, ex⟩
    cases ex with
    | none => simp [downloadFile, hget, hdl]
    | some e2 => cases e2 <;> simp [downloadFile, hget, hdl]
  constructor
  · intro q hq
    rw [hD] at hq
    simp only [DLState.reported, List.mem_map] at hq
    obtain ⟨p, hpmem, rfl⟩ := hq
    have hfacts := dlLoop_percents_inv events (initState http.contentLength start)
      htot (le_refl 0) (by intro p hp; cases hp) p hpmem
    exact updateProgressBar_neg hfacts.2 hfacts.1
  · intro ev rest hev hn hnil
    rw [hD] at hnil
    subst hev
    obtain ⟨l, hl⟩ :=
      dlLoop_percents_cons_pos (initState http.contentLength start) ev rest hn
    simp only [DLState.reported] at hnil
    rw [hl] at hnil
    simp [initState] at hnil

theorem downloadFile_unknown_total_percent_witness :
    (none : Option GoError) = none ∧
    (⟨none, -1⟩ : HttpOutcome).getErr = none ∧
    (⟨none, -1⟩ : HttpOutcome).contentLength < 0 ∧
    ((∀ q ∈ (downloadFile none ⟨none, -1⟩ 0
        [⟨1024, 0, 1024, none, some ReadErr.eof⟩]).1.reported, q < 0) ∧
     (∀ ev rest, [(⟨1024, 0, 1024, none, some ReadErr.eof⟩ : ReadEvent)] = ev :: rest →
        0 < ev.n →
        (downloadFile none ⟨none, -1⟩ 0
          [⟨1024, 0, 1024, none, some ReadErr.eof⟩]).1.reported ≠ [])) :=
  ⟨rfl, rfl, by decide,
    downloadFile_unknown_total_percent none ⟨none, -1⟩ 0
      [⟨1024, 0, 1024, none, some ReadErr.eof⟩] rfl rfl (by decide)⟩

/-- Claim C5 as amended: for every single task whose declared content
length is positive, the reported progress percentage
`current / total * 100` (with `total` fixed after the response header is
read) is monotonically non-decreasing over the lifetime of the task,
since `current` only ever increases by the non-negative chunk length; for
a negative (unknown) declared length the code still reports percentages
and they decrease. -/
theorem downloadFile_percent_monotone (createErr : Option GoError)
    (http : HttpOutcome) (start : Int) (events : List ReadEvent)
    (htot : 0 < http.contentLength) :
    List.Chain' (· ≤ ·) (downloadFile createErr http start events).1.reported := by
  cases createErr with
  | some e =>
    have h0 : (downloadFile (some e) http start events).1.reported = [] := rfl
    rw [h0]
    exact List.chain'_nil
  | none =>
    cases hget : http.getErr with
    | some e =>
      have h0 : (downloadFile none http start events).1.reported = [] := by
        simp [downloadFile, hget, DLState.reported, initState]
      rw [h0]
      exact List.chain'_nil
    | none =>
      have hD : (downloadFile none http start events).1 =
          (dlLoop (initState http.contentLength start) events).1 := by
        rcases hdl : dlLoop (initState http.contentLength start) events with ⟨st, ex⟩
        cases ex with
        | none => simp [downloadFile, hget, hdl]
        | some e2 => cases e2 <;> simp [downloadFile, hget, hdl]
      rw [hD]
      have h := dlLoop_percents_chain events (initState http.contentLength start)
        htot List.chain'_nil (by intro p hp; cases hp)
      simpa [DLState.reported, List.chain'_map] using h

theorem downloadFile_percent_monotone_witness :
    (0 : Int) < (⟨none, 2048⟩ : HttpOutcome).contentLength ∧
    List.Chain' (· ≤ ·) (downloadFile none ⟨none, 2048⟩ 0
      [⟨1024, 0, 1024, none, none⟩, ⟨1024, 0, 1024, none, some ReadErr.eof⟩]).1.reported :=
  ⟨by decide,
    downloadFile_percent_monotone none ⟨none, 2048⟩ 0
      [⟨1024, 0, 1024, none, none⟩, ⟨1024, 0, 1024, none, some ReadErr.eof⟩] (by decide)⟩

/-! ### Sampling lemmas -/

lemma timesMonoB_anti (t₁ t₂ : Int) (events : List ReadEvent) (h : t₁ ≤ t₂)
    (hm : timesMonoB t₂ events = true) : timesMonoB t₁ events = true := by
  cases events with
  | nil => rfl
  | cons ev rest =>
    simp only [timesMonoB, Bool.and_eq_true, decide_eq_true_eq] at hm ⊢
    exact ⟨le_trans h hm.1, hm.2⟩

lemma dlChunk_sample_fields (st : DLState) (ev : ReadEvent) :
    ((dlChunk st ev).samples = st.samples ∧ (dlChunk st ev).lastTime = st.lastTime ∧
      (dlChunk st ev).lastBytes = st.lastBytes) ∨
    (0 < ev.n ∧ nsPerSec ≤ ev.now - st.lastTime ∧
      (dlChunk st ev).samples = st.samples ++
        [⟨ev.now, st.current + (ev.n : Int),
          st.current + (ev.n : Int) - st.lastBytes, ev.now - st.lastTime⟩] ∧
      (dlChunk st ev).lastTime = ev.now ∧
      (dlChunk st ev).lastBytes = st.current + (ev.n : Int)) := by
  by_cases hn : 0 < ev.n
  · by_cases hs : nsPerSec ≤ ev.now - st.lastTime
    · right
      refine ⟨hn, hs, ?_, ?_, ?_⟩ <;> simp [dlChunk, hn, hs]
    · left
      refine ⟨?_, ?_, ?_⟩ <;> simp [dlChunk, hn, hs]
  · left
    rw [dlChunk_zero st ev (by omega)]
    exact ⟨rfl, rfl, rfl⟩

lemma dlChunk_sampleInv (start : Int) (st : DLState) (ev : ReadEvent)
    (hinv : sampleInv start st) (hnow : st.lastTime ≤ ev.now) :
    sampleInv start (dlChunk st ev) ∧ (dlChunk st ev).lastTime ≤ ev.now := by
  obtain ⟨hch, hlt, hlb⟩ := hinv
  rcases dlChunk_sample_fields st ev with ⟨hs, ht, hb⟩ | ⟨hn, hge, hs, ht, hb⟩
  · refine ⟨⟨?_, ?_, ?_⟩, ?_⟩
    · rw [hs]; exact hch
    · rw [ht, hs]; exact hlt
    · rw [hb, hs]; exact hlb
    · rw [ht]; exact hnow
  · refine ⟨⟨?_, ?_, ?_⟩, by rw [ht]⟩
    · rw [hs, ← List.cons_append]
      refine List.Chain'.append hch (List.chain'_singleton _) ?_
      intro x hx y hy
      rw [Option.mem_def] at hx hy
      rw [getLast?_cons_getLastD] at hx
      have hxe : x = st.samples.getLastD (originSample start) := by
        simpa using hx.symm
      have hye : y = (⟨ev.now, st.current + (ev.n : Int),
          st.current + (ev.n : Int) - st.lastBytes, ev.now - st.lastTime⟩ : Sample) := by
        simpa using hy.symm
      subst hxe
      subst hye
      constructor
      · show (st.samples.getLastD (originSample start)).timeNs + nsPerSec ≤ ev.now
        rw [← hlt]
        omega
      · simp only [Sample.speed, secondsBetween, ← hlt, ← hlb]
    · rw [ht, hs, getLastD_append_single]
    · rw [hb, hs, getLastD_append_single]

lemma dlLoop_sampleInv (start : Int) (events : List ReadEvent) (st : DLState)
    (hinv : sampleInv start st) (ht : timesMonoB st.lastTime events = true) :
    sampleInv start (dlLoop st events).1 := by
  induction events generalizing st with
  | nil => exact hinv
  | cons ev rest ih =>
    have htm : st.lastTime ≤ ev.now ∧ timesMonoB ev.now rest = true := by
      simpa only [timesMonoB, Bool.and_eq_true, decide_eq_true_eq] using ht
    obtain ⟨hinv', hle⟩ := dlChunk_sampleInv start st ev hinv htm.1
    have ht' : timesMonoB (dlChunk st ev).lastTime rest = true :=
      timesMonoB_anti _ _ _ hle htm.2
    cases hre : ev.readErr with
    | none => simpa [dlLoop, dlStep, hre] using ih (dlChunk st ev) hinv' ht'
    | some exit => cases exit <;> simpa [dlLoop, dlStep, hre] using hinv'

/-- Claim C6: for every task, under a monotone wall clock, the emitted
throughput samples — viewed behind the virtual origin sample holding the
pre-loop baselines (start time, zero bytes) — are chained by `sampleRel`:
consecutive emissions are at least one wall-clock second apart (hence at
most one sample per second, and none, the origin link included, before
one second of elapsed transfer time), and each speed equals the counter
delta since the previous emission divided by the elapsed seconds since
it, the baseline being reset at each emission. -/
theorem downloadFile_sampling (createErr : Option GoError) (http : HttpOutcome)
    (start : Int) (events : List ReadEvent)
    (ht : timesMonoB start events = true) :
    List.Chain' sampleRel
      (originSample start :: (downloadFile createErr http start events).1.samples) := by
  cases createErr with
  | some e =>
    have h0 : (downloadFile (some e) http start events).1.samples = [] := rfl
    rw [h0]
    exact List.chain'_singleton _
  | none =>
    cases hget : http.getErr with
    | some e =>
      have h0 : (downloadFile none http start events).1.samples = [] := by
        simp [downloadFile, hget, initState]
      rw [h0]
      exact List.chain'_singleton _
    | none =>
      have hD : (downloadFile none http start events).1 =
          (dlLoop (initState http.contentLength start) events).1 := by
        rcases hdl : dlLoop (initState http.contentLength start) events with ⟨st, ex⟩
        cases ex with
        | none => simp [downloadFile, hget, hdl]
        | some e2 => cases e2 <;> simp [downloadFile, hget, hdl]
      rw [hD]
      have hinit : sampleInv start (initState http.contentLength start) :=
        ⟨List.chain'_singleton _, rfl, rfl⟩
      exact (dlLoop_sampleInv start events (initState http.contentLength start) hinit ht).1

theorem downloadFile_sampling_witness :
    timesMonoB 0 [⟨1024, 2000000000, 1024, none, none⟩,
      ⟨1024, 3500000000, 1024, none, some ReadErr.eof⟩] = true ∧
    List.Chain' sampleRel (originSample 0 ::
      (downloadFile none ⟨none, 4096⟩ 0 [⟨1024, 2000000000, 1024, none, none⟩,
        ⟨1024, 3500000000, 1024, none, some ReadErr.eof⟩]).1.samples) :=
  ⟨by decide,
    downloadFile_sampling none ⟨none, 4096⟩ 0
      [⟨1024, 2000000000, 1024, none, none⟩,
        ⟨1024, 3500000000, 1024, none, some ReadErr.eof⟩] (by decide)⟩
